import Mathlib

/-!
Shallow embedding of the `scrap` crate's `src/transform.rs`: the
`GenericTransform` capability, `Transformation` (a type-gated function),
and the two traversals `Everywhere` and `EverywhereBut`.

Rust's type-level polymorphism `fn transform<T>(&mut self, t: T) -> T` is
embedded over a closed universe `Ty` of type codes with an interpretation
`Ty.denote`.  The universe holds the types the repository's own test and
the spec's concrete scenarios use: `bool`, the integer payload type, string
slices, and one recursive term type `Expr` with `Leaf(int)` and
`Pair(Expr, Expr)` (the spec's `Pair(Leaf(1), Leaf(2))` scenario).

`FnMut` closures carry mutable state; that state is threaded explicitly:
a generic transform over state type `S` is a function
`(T : Ty) → S → T.denote → T.denote × S`, and a generic query
(`GenericQuery<bool>`, also an `FnMut`-style object) is
`(T : Ty) → S → T.denote → Bool × S`.
-/

namespace Scrap

/-- Type codes of the closed universe over which the polymorphic
`transform<T>` methods are embedded. -/
inductive Ty where
  | bool
  | int
  | str
  | expr
deriving DecidableEq

/-- Modelled from the spec: a concrete `Term` type (the spec's scenario term
`Pair(Leaf(1), Leaf(2))`).  The repository's `Term` impls live outside
`src/transform.rs`; the spec (§3, §6, §8) fixes their one-level
decomposition: a `Leaf` decomposes into its integer payload, a `Pair` into
its two subterms in declared order. -/
inductive Expr where
  | leaf (n : Int)
  | pair (a b : Expr)
deriving DecidableEq

/-- Interpretation of the type codes as Lean types. -/
def Ty.denote : Ty → Type
  | Ty.bool => Bool
  | Ty.int => Int
  | Ty.str => String
  | Ty.expr => Expr

/-- The state-threaded form of the `GenericTransform` trait: a function
usable at every type code, carrying mutable state of type `S`
(`fn transform<T>(&mut self, t: T) -> T`). -/
def GTf (S : Type) : Type :=
  (T : Ty) → S → T.denote → T.denote × S

/-- The state-threaded form of `GenericQuery<bool>`: a polymorphic boolean
query over a borrowed value, carrying mutable state of type `S`
(`fn query<T>(&mut self, t: &T) -> bool`). -/
def GQf (S : Type) : Type :=
  (T : Ty) → S → T.denote → Bool × S

/-- Modelled from the spec: the runtime type-identity collaborator
`cast<T, U>(value: T) -> Result<U, T>` (`Cast` is defined outside
`src/transform.rs`).  Spec §3/§6 invariant: success occurs if and only if
`T` and `U` denote the identical type; on success the value is unchanged,
on failure the original value is returned as the error payload. -/
def Cast.cast (T U : Ty) (t : T.denote) : Except T.denote U.denote :=
  if h : T = U then Except.ok (h ▸ t) else Except.error t

/-- Embedding of `Transformation::transform` (src/transform.rs lines 48-59).
`f` is the wrapped `FnMut(U) -> U` with its mutable state threaded as `S`.
The `unreachable!` branch of the source (reverse cast fails after a
successful forward cast) is made explicit as `none`; every other path
returns `some` of the result value and the updated closure state. -/
def Transformation.transform (U : Ty) {S : Type} (f : S → U.denote → U.denote × S)
    (T : Ty) (s : S) (t : T.denote) : Option (T.denote × S) :=
  match Cast.cast T U t with
  | Except.ok u =>
      let r := f s u
      match Cast.cast U T r.1 with
      | Except.ok t2 => some (t2, r.2)
      | Except.error _ => none
  | Except.error t2 => some (t2, s)

theorem Cast.cast_ne {T U : Ty} (h : T ≠ U) (t : T.denote) :
    Cast.cast T U t = Except.error t := by
  simp [Cast.cast, h]

theorem Cast.cast_self (T : Ty) (t : T.denote) :
    Cast.cast T T t = Except.ok t := by
  simp [Cast.cast]

/-- C1: for every type `T` different from the `Transformation`'s specialized
type `U` and every value `v : T`, `Transformation::transform` returns `v`
unchanged, and the wrapped function `f` is not invoked: the closure state
`s` comes back untouched, for an arbitrary (hence arbitrarily
instrumented) `f`. -/
theorem transformation_identity_elsewhere {S : Type} (T U : Ty) (h : T ≠ U)
    (f : S → U.denote → U.denote × S) (s : S) (v : T.denote) :
    Transformation.transform U f T s v = some (v, s) := by
  simp [Transformation.transform, Cast.cast_ne h]

/-- Witness for C1, the spec's concrete scenario: the bool-specialized
negation applied to a string returns the string unchanged (and its call
counter, threaded as state, stays at 0); applied to `true` it returns
`false` and bumps the counter. -/
theorem transformation_identity_elsewhere_witness :
    Transformation.transform Ty.bool (fun (s : Nat) (b : Bool) => (!b, s + 1))
      Ty.str 0 "string" = some ("string", 0) :=
  transformation_identity_elsewhere Ty.str Ty.bool (by decide)
    (fun (s : Nat) (b : Bool) => (!b, s + 1)) 0 "string"

/-- C2: at the specialized type `U` itself, `Transformation::transform`
returns exactly `f s v`: the value is `f`'s result and the closure state is
whatever the single invocation of `f` made of it (so with a counting or
logging `f`, exactly one invocation is recorded, observable on later
calls). -/
theorem transformation_correct_type {S : Type} (U : Ty)
    (f : S → U.denote → U.denote × S) (s : S) (v : U.denote) :
    Transformation.transform U f U s v = some (f s v) := by
  simp [Transformation.transform, Cast.cast_self]

/-- C5: the reverse cast inside `Transformation::transform` always succeeds
when the forward cast did, so the `unreachable!` branch (embedded as
`none`) is never taken: for every type, state and input the result is
`some`. -/
theorem transformation_never_panics {S : Type} (U : Ty)
    (f : S → U.denote → U.denote × S) (T : Ty) (s : S) (t : T.denote) :
    (Transformation.transform U f T s t).isSome = true := by
  by_cases h : T = U
  · subst h
    simp [Transformation.transform, Cast.cast_self]
  · simp [Transformation.transform, Cast.cast_ne h]

/-- Structural size of an `Expr`, the termination measure for the
traversals. -/
def Expr.size : Expr → Nat
  | Expr.leaf _ => 1
  | Expr.pair a b => 1 + Expr.size a + Expr.size b

/-- Termination measure for a value of the universe: the size of the term
for the recursive type code, 0 for the leaf type codes. -/
def Ty.measureOf : (T : Ty) → T.denote → Nat
  | Ty.expr, t => Expr.size t
  | Ty.bool, _ => 0
  | Ty.int, _ => 0
  | Ty.str, _ => 0

/-- Modelled from the spec: `Term::map_one_transform` (the `Term` trait and
its impls are outside `src/transform.rs`).  Spec §6: given a universal-apply
capability, rebuild the value with every immediate child replaced by the
capability applied to it, preserving declared child order.  The leaf type
codes have no children; a `Leaf` has its integer payload as its one child,
a `Pair` has its two subterms as children in declared order.  State threads
left to right through the children. -/
def Term.mapOneTransform {S : Type} (F : GTf S) :
    (T : Ty) → S → T.denote → T.denote × S
  | Ty.expr, s, Expr.leaf n =>
      let r := F Ty.int s n
      (Expr.leaf r.1, r.2)
  | Ty.expr, s, Expr.pair a b =>
      let r1 := F Ty.expr s a
      let r2 := F Ty.expr r1.2 b
      (Expr.pair r1.1 r2.1, r2.2)
  | Ty.bool, s, t => (t, s)
  | Ty.int, s, t => (t, s)
  | Ty.str, s, t => (t, s)

/-- Embedding of `Everywhere::transform` (src/transform.rs lines 88-94):
`let t = t.map_one_transform(self); self.f.transform(t)`.  The one-level
mapping is unfolded per type code and constructor so the recursion is
structural; the theorem `everywhere_bottom_up` below re-establishes the
source's equation against `Term.mapOneTransform` verbatim. -/
def Everywhere.transform {S : Type} (f : GTf S) :
    (T : Ty) → S → T.denote → T.denote × S
  | Ty.expr, s, Expr.leaf n =>
      let r := Everywhere.transform f Ty.int s n
      f Ty.expr r.2 (Expr.leaf r.1)
  | Ty.expr, s, Expr.pair a b =>
      let r1 := Everywhere.transform f Ty.expr s a
      let r2 := Everywhere.transform f Ty.expr r1.2 b
      f Ty.expr r2.2 (Expr.pair r1.1 r2.1)
  | Ty.bool, s, t => f Ty.bool s t
  | Ty.int, s, t => f Ty.int s t
  | Ty.str, s, t => f Ty.str s t
termination_by T _ t => Ty.measureOf T t
decreasing_by
  all_goals simp [Ty.measureOf, Expr.size]
  all_goals omega

/-- Embedding of `EverywhereBut::transform` (src/transform.rs lines
128-138): `if self.p.query(&t) { let t = t.map_one_transform(self);
self.f.transform(t) } else { t }`.  As with `Everywhere.transform` the
one-level mapping is unfolded per constructor for structural recursion;
`everywhereBut_query_first` re-establishes the source's equation. -/
def EverywhereBut.transform {S : Type} (p : GQf S) (f : GTf S) :
    (T : Ty) → S → T.denote → T.denote × S
  | Ty.expr, s, Expr.leaf n =>
      let q := p Ty.expr s (Expr.leaf n)
      if q.1 then
        let r := EverywhereBut.transform p f Ty.int q.2 n
        f Ty.expr r.2 (Expr.leaf r.1)
      else (Expr.leaf n, q.2)
  | Ty.expr, s, Expr.pair a b =>
      let q := p Ty.expr s (Expr.pair a b)
      if q.1 then
        let r1 := EverywhereBut.transform p f Ty.expr q.2 a
        let r2 := EverywhereBut.transform p f Ty.expr r1.2 b
        f Ty.expr r2.2 (Expr.pair r1.1 r2.1)
      else (Expr.pair a b, q.2)
  | Ty.bool, s, t =>
      let q := p Ty.bool s t
      if q.1 then f Ty.bool q.2 t else (t, q.2)
  | Ty.int, s, t =>
      let q := p Ty.int s t
      if q.1 then f Ty.int q.2 t else (t, q.2)
  | Ty.str, s, t =>
      let q := p Ty.str s t
      if q.1 then f Ty.str q.2 t else (t, q.2)
termination_by T _ t => Ty.measureOf T t
decreasing_by
  all_goals simp [Ty.measureOf, Expr.size]
  all_goals omega

/-- Dynamic record of one value of the universe, used as a log entry by the
instrumented (logging) transforms and queries below. -/
inductive TEntry where
  | boolE (b : Bool)
  | intE (n : Int)
  | strE (s : String)
  | exprE (e : Expr)
deriving DecidableEq

/-- Package a value of the universe as a log entry. -/
def entryOf : (T : Ty) → T.denote → TEntry
  | Ty.bool, b => TEntry.boolE b
  | Ty.int, n => TEntry.intE n
  | Ty.str, s => TEntry.strE s
  | Ty.expr, e => TEntry.exprE e

/-- A stateful generic transform that returns its argument unchanged and
appends it to a shared log: the spec's "transformation that appends its own
identifier to a shared log" used to observe invocation order. -/
def traceGT : GTf (List TEntry) := fun T s t => (t, s ++ [entryOf T t])

/-- A stateful generic query that answers `true` everywhere and appends the
inspected value to a shared log, used to observe where and in which order
the predicate is evaluated. -/
def traceGQ : GQf (List TEntry) := fun T s t => (true, s ++ [entryOf T t])

/-- A generic transform that is the identity on both value and log state. -/
def idGT : GTf (List TEntry) := fun _ s t => (t, s)

/-- The bottom-up visit order of a term: both children's visit sequences
(siblings in declared order) strictly before the parent's own entry. -/
def postorder : Expr → List TEntry
  | Expr.leaf n => [TEntry.intE n, TEntry.exprE (Expr.leaf n)]
  | Expr.pair a b => postorder a ++ postorder b ++ [TEntry.exprE (Expr.pair a b)]

/-- The order in which `EverywhereBut` evaluates its predicate when nothing
is pruned: each node exactly once, a node strictly before its children,
siblings in declared order. -/
def queryOrder : Expr → List TEntry
  | Expr.leaf n => [TEntry.exprE (Expr.leaf n), TEntry.intE n]
  | Expr.pair a b => TEntry.exprE (Expr.pair a b) :: (queryOrder a ++ queryOrder b)

theorem everywhere_eq_mapOne {S : Type} (f : GTf S) (T : Ty) (s : S)
    (t : T.denote) :
    Everywhere.transform f T s t =
      (let r := Term.mapOneTransform (Everywhere.transform f) T s t
       f T r.2 r.1) := by
  cases T with
  | expr => cases t <;> simp [Everywhere.transform, Term.mapOneTransform]
  | bool => simp [Everywhere.transform, Term.mapOneTransform]
  | int => simp [Everywhere.transform, Term.mapOneTransform]
  | str => simp [Everywhere.transform, Term.mapOneTransform]

theorem everywhereBut_eq_queryThenMapOne {S : Type} (p : GQf S) (f : GTf S)
    (T : Ty) (s : S) (t : T.denote) :
    EverywhereBut.transform p f T s t =
      (let q := p T s t
       if q.1 then
         let r := Term.mapOneTransform (EverywhereBut.transform p f) T q.2 t
         f T r.2 r.1
       else (t, q.2)) := by
  cases T with
  | expr => cases t <;> simp [EverywhereBut.transform, Term.mapOneTransform]
  | bool => simp [EverywhereBut.transform, Term.mapOneTransform]
  | int => simp [EverywhereBut.transform, Term.mapOneTransform]
  | str => simp [EverywhereBut.transform, Term.mapOneTransform]

/-- C3: `Everywhere::transform` first rebuilds the node with every immediate
child replaced by the recursive result (`Term.mapOneTransform` applied to
the traversal itself, children in declared order, leaves unchanged by that
step) and only then applies the wrapped transform `f` to the rebuilt node;
consequently the logging transform `traceGT` logs, on any term, exactly the
bottom-up sequence `postorder t`: all children before their parent,
siblings in declared order. -/
theorem everywhere_bottom_up :
    (∀ (S : Type) (f : GTf S) (T : Ty) (s : S) (t : T.denote),
      Everywhere.transform f T s t =
        (let r := Term.mapOneTransform (Everywhere.transform f) T s t
         f T r.2 r.1))
    ∧ (∀ (s : List TEntry) (t : Expr),
      Everywhere.transform traceGT Ty.expr s t = (t, s ++ postorder t)) := by
  refine ⟨fun S f T s t => everywhere_eq_mapOne f T s t, fun s t => ?_⟩
  induction t generalizing s with
  | leaf n => simp [Everywhere.transform, traceGT, postorder, entryOf]
  | pair a b iha ihb =>
      simp [Everywhere.transform, iha, ihb, traceGT, postorder, entryOf]

/-- C4: whenever the predicate answers `false` on a node,
`EverywhereBut::transform` returns the node completely unchanged and the
final state is exactly the state after that single predicate evaluation:
for an arbitrary (hence arbitrarily instrumented) `p` and `f`, no
invocation of `f` and no further invocation of `p` happens for the node or
anything beneath it. -/
theorem everywhereBut_prune {S : Type} (p : GQf S) (f : GTf S) (T : Ty)
    (s : S) (t : T.denote) (h : (p T s t).1 = false) :
    EverywhereBut.transform p f T s t = (t, (p T s t).2) := by
  cases T with
  | expr => cases t <;> simp [EverywhereBut.transform, h]
  | bool => simp [EverywhereBut.transform, h]
  | int => simp [EverywhereBut.transform, h]
  | str => simp [EverywhereBut.transform, h]

/-- Witness for C4: a predicate that counts its invocations and answers
`false` leaves `Pair(Leaf(1), Leaf(2))` untouched, with the counter at 1:
the predicate ran exactly once (on the root) and the transform never ran. -/
theorem everywhereBut_prune_witness :
    EverywhereBut.transform (fun (_ : Ty) (s : Nat) _ => (false, s + 1))
      (fun _ s t => (t, s)) Ty.expr 0 (Expr.pair (Expr.leaf 1) (Expr.leaf 2))
      = (Expr.pair (Expr.leaf 1) (Expr.leaf 2), 1) :=
  everywhereBut_prune (fun (_ : Ty) (s : Nat) _ => (false, s + 1))
    (fun _ s t => (t, s)) Ty.expr 0 (Expr.pair (Expr.leaf 1) (Expr.leaf 2)) rfl

/-- C7: an `Everywhere` traversal built from a universal transform that is
the identity at every type (value returned unchanged, state untouched)
returns every input unchanged — a structure-preserving no-op. -/
theorem everywhere_identity_noop {S : Type} (f : GTf S)
    (h : ∀ (T : Ty) (s : S) (t : T.denote), f T s t = (t, s)) (T : Ty)
    (s : S) (t : T.denote) :
    Everywhere.transform f T s t = (t, s) := by
  cases T with
  | expr =>
      induction t generalizing s with
      | leaf n => simp [Everywhere.transform, h]
      | pair a b iha ihb => simp [Everywhere.transform, h, iha, ihb]
  | bool => simp [Everywhere.transform, h]
  | int => simp [Everywhere.transform, h]
  | str => simp [Everywhere.transform, h]

/-- Witness for C7: the identity traversal on `Pair(Leaf(1), Leaf(2))`. -/
theorem everywhere_identity_noop_witness :
    Everywhere.transform (fun (T : Ty) (s : Nat) (t : T.denote) => (t, s))
      Ty.expr 0 (Expr.pair (Expr.leaf 1) (Expr.leaf 2))
      = (Expr.pair (Expr.leaf 1) (Expr.leaf 2), 0) :=
  everywhere_identity_noop (fun (T : Ty) (s : Nat) (t : T.denote) => (t, s))
    (fun _ _ _ => rfl) Ty.expr 0 (Expr.pair (Expr.leaf 1) (Expr.leaf 2))

/-- C8: `EverywhereBut::transform` evaluates the predicate on the original,
untransformed node with the incoming state, before any recursion into
children (the recursion and the `else` branch both reuse the original `t`,
so the evaluation leaves the node unchanged); with the logging,
always-true predicate `traceGQ` and the inert transform `idGT`, the query
log on any term is exactly `queryOrder t`: every node queried exactly once,
the node before its children. -/
theorem everywhereBut_query_first :
    (∀ (S : Type) (p : GQf S) (f : GTf S) (T : Ty) (s : S) (t : T.denote),
      EverywhereBut.transform p f T s t =
        (let q := p T s t
         if q.1 then
           let r := Term.mapOneTransform (EverywhereBut.transform p f) T q.2 t
           f T r.2 r.1
         else (t, q.2)))
    ∧ (∀ (s : List TEntry) (t : Expr),
      EverywhereBut.transform traceGQ idGT Ty.expr s t = (t, s ++ queryOrder t)) := by
  refine ⟨fun S p f T s t => everywhereBut_eq_queryThenMapOne p f T s t,
    fun s t => ?_⟩
  induction t generalizing s with
  | leaf n => simp [EverywhereBut.transform, traceGQ, idGT, queryOrder, entryOf]
  | pair a b iha ihb =>
      simp [EverywhereBut.transform, traceGQ, idGT, queryOrder, entryOf, iha, ihb]

/-- A pure (stateless, deterministic) polymorphic predicate, as used to
state when a predicate "returns true at every node of the structure". -/
def PureP : Type := (T : Ty) → T.denote → Bool

/-- Lift a pure predicate to a stateful `GenericQuery` that never touches
its state. -/
def liftP {S : Type} (p : PureP) : GQf S := fun T s t => (p T t, s)

/-- The pure predicate `p` answers `true` on every node `EverywhereBut`
visits inside this term: the term itself, and recursively every subterm
and every leaf payload. -/
def allTrue (p : PureP) : Expr → Bool
  | Expr.leaf n => p Ty.expr (Expr.leaf n) && p Ty.int n
  | Expr.pair a b => p Ty.expr (Expr.pair a b) && (allTrue p a && allTrue p b)

/-- C6: on a term on which the predicate answers `true` at every node,
`EverywhereBut` returns the same result — same value and same final `f`
state, for an arbitrary stateful `f`, hence the same invocation sequence of
`f` — as `Everywhere`; in particular, with a constantly-true predicate the
two traversals are extensionally equal at every type. -/
theorem everywhereBut_true_is_everywhere :
    (∀ (S : Type) (p : PureP) (f : GTf S) (t : Expr), allTrue p t = true →
      ∀ s : S, EverywhereBut.transform (liftP p) f Ty.expr s t
        = Everywhere.transform f Ty.expr s t)
    ∧ (∀ (S : Type) (p : GQf S) (f : GTf S),
      (∀ (T : Ty) (s : S) (t : T.denote), p T s t = (true, s)) →
      ∀ (T : Ty) (s : S) (t : T.denote),
        EverywhereBut.transform p f T s t = Everywhere.transform f T s t) := by
  constructor
  · intro S p f t ht
    induction t with
    | leaf n =>
        simp only [allTrue, Bool.and_eq_true] at ht
        intro s
        simp [EverywhereBut.transform, Everywhere.transform, liftP, ht.1, ht.2]
    | pair a b iha ihb =>
        simp only [allTrue, Bool.and_eq_true] at ht
        intro s
        simp [EverywhereBut.transform, Everywhere.transform, liftP, ht.1,
          iha ht.2.1, ihb ht.2.2]
  · intro S p f hp T
    cases T with
    | expr =>
        intro s t
        induction t generalizing s with
        | leaf n => simp [EverywhereBut.transform, Everywhere.transform, hp]
        | pair a b iha ihb =>
            simp [EverywhereBut.transform, Everywhere.transform, hp, iha, ihb]
    | bool => intro s t; simp [EverywhereBut.transform, Everywhere.transform, hp]
    | int => intro s t; simp [EverywhereBut.transform, Everywhere.transform, hp]
    | str => intro s t; simp [EverywhereBut.transform, Everywhere.transform, hp]

/-- Witness for C6: with the constantly-true pure predicate, the filtered
traversal of `Pair(Leaf(1), Leaf(2))` under the logging transform agrees
with the full traversal, logs included. -/
theorem everywhereBut_true_is_everywhere_witness :
    EverywhereBut.transform (liftP (fun _ _ => true)) traceGT Ty.expr []
      (Expr.pair (Expr.leaf 1) (Expr.leaf 2))
      = Everywhere.transform traceGT Ty.expr []
        (Expr.pair (Expr.leaf 1) (Expr.leaf 2)) :=
  everywhereBut_true_is_everywhere.1 (List TEntry) (fun _ _ => true) traceGT
    (Expr.pair (Expr.leaf 1) (Expr.leaf 2)) (by decide) []

/-- C10: the embedded `Transformation::transform`, `Everywhere::transform`
and `EverywhereBut::transform` are deterministic: two runs on equal inputs
(equal starting closure state, equal term) produce equal results — equal
output values and equal final states, the latter for an arbitrary `f`, `g`
and `p` including instrumented ones, so the invocation sequences coincide
as well. -/
theorem traversals_deterministic {S : Type} (U : Ty)
    (g : S → U.denote → U.denote × S) (p : GQf S) (f : GTf S) (T : Ty)
    (s1 s2 : S) (t1 t2 : T.denote) (hs : s1 = s2) (ht : t1 = t2) :
    Transformation.transform U g T s1 t1 = Transformation.transform U g T s2 t2
    ∧ Everywhere.transform f T s1 t1 = Everywhere.transform f T s2 t2
    ∧ EverywhereBut.transform p f T s1 t1 = EverywhereBut.transform p f T s2 t2 := by
  subst hs
  subst ht
  exact ⟨rfl, rfl, rfl⟩

/-- Witness for C10 at concrete inputs: the increment transformation, the
logging traversals, equal states and equal terms. -/
theorem traversals_deterministic_witness :
    Transformation.transform Ty.int (fun (s : List TEntry) (n : Int) => (n + 1, s))
      Ty.expr [] (Expr.leaf 1)
      = Transformation.transform Ty.int (fun (s : List TEntry) (n : Int) => (n + 1, s))
        Ty.expr [] (Expr.leaf 1)
    ∧ Everywhere.transform traceGT Ty.expr [] (Expr.leaf 1)
      = Everywhere.transform traceGT Ty.expr [] (Expr.leaf 1)
    ∧ EverywhereBut.transform traceGQ traceGT Ty.expr [] (Expr.leaf 1)
      = EverywhereBut.transform traceGQ traceGT Ty.expr [] (Expr.leaf 1) :=
  traversals_deterministic Ty.int (fun (s : List TEntry) (n : Int) => (n + 1, s))
    traceGQ traceGT Ty.expr [] [] (Expr.leaf 1) (Expr.leaf 1) rfl rfl

/-- Structural depth of a term as the traversals see it: a `Leaf` is a node
above its integer payload (depth 2), a `Pair` is a node above its deeper
subterm. -/
def Expr.depth : Expr → Nat
  | Expr.leaf _ => 2
  | Expr.pair a b => 1 + max (Expr.depth a) (Expr.depth b)

/-- Structural depth of a value of the universe: the term depth for the
recursive type code, 1 (a single call, no recursion) for the leaf type
codes. -/
def Ty.depth : (T : Ty) → T.denote → Nat
  | Ty.expr, t => Expr.depth t
  | Ty.bool, _ => 1
  | Ty.int, _ => 1
  | Ty.str, _ => 1

/-- One-level mapping threaded through a fallible callback, used by the
fuel-indexed traversals: `none` from a child aborts the rebuild. -/
def Term.mapOneTransformF {S : Type}
    (F : (T : Ty) → S → T.denote → Option (T.denote × S)) :
    (T : Ty) → S → T.denote → Option (T.denote × S)
  | Ty.expr, s, Expr.leaf n =>
      match F Ty.int s n with
      | none => none
      | some r => some (Expr.leaf r.1, r.2)
  | Ty.expr, s, Expr.pair a b =>
      match F Ty.expr s a with
      | none => none
      | some r1 =>
          match F Ty.expr r1.2 b with
          | none => none
          | some r2 => some (Expr.pair r1.1 r2.1, r2.2)
  | Ty.bool, s, t => some (t, s)
  | Ty.int, s, t => some (t, s)
  | Ty.str, s, t => some (t, s)

/-- `Everywhere::transform` with an explicit call-stack budget: each nested
recursive call consumes one unit of fuel and the run returns `none` when
the budget is exhausted.  The least sufficient fuel is therefore the
recursion depth of the run. -/
def everywhereFuel {S : Type} (f : GTf S) :
    Nat → (T : Ty) → S → T.denote → Option (T.denote × S)
  | 0, _, _, _ => none
  | Nat.succ fuel, T, s, t =>
      match Term.mapOneTransformF (everywhereFuel f fuel) T s t with
      | none => none
      | some r => some (f T r.2 r.1)

/-- `EverywhereBut::transform` with an explicit call-stack budget, in the
sense of `everywhereFuel`. -/
def everywhereButFuel {S : Type} (p : GQf S) (f : GTf S) :
    Nat → (T : Ty) → S → T.denote → Option (T.denote × S)
  | 0, _, _, _ => none
  | Nat.succ fuel, T, s, t =>
      let q := p T s t
      if q.1 then
        match Term.mapOneTransformF (everywhereButFuel p f fuel) T q.2 t with
        | none => none
        | some r => some (f T r.2 r.1)
      else some (t, q.2)

theorem everywhereFuel_complete {S : Type} (f : GTf S) :
    ∀ (fuel : Nat) (T : Ty) (s : S) (t : T.denote), Ty.depth T t ≤ fuel →
      everywhereFuel f fuel T s t = some (Everywhere.transform f T s t) := by
  intro fuel
  induction fuel with
  | zero =>
      intro T s t h
      cases T with
      | expr => cases t <;> simp [Ty.depth, Expr.depth] at h
      | bool => simp [Ty.depth] at h
      | int => simp [Ty.depth] at h
      | str => simp [Ty.depth] at h
  | succ fuel ih =>
      intro T s t h
      cases T with
      | expr =>
          cases t with
          | leaf n =>
              have h1 : Ty.depth Ty.int n ≤ fuel := by
                simp [Ty.depth, Expr.depth] at h ⊢
                omega
              simp [everywhereFuel, Term.mapOneTransformF, ih Ty.int s n h1,
                Everywhere.transform]
          | pair a b =>
              have ha : Ty.depth Ty.expr a ≤ fuel := by
                simp [Ty.depth, Expr.depth] at h ⊢
                omega
              have hb : Ty.depth Ty.expr b ≤ fuel := by
                simp [Ty.depth, Expr.depth] at h ⊢
                omega
              simp [everywhereFuel, Term.mapOneTransformF, ih Ty.expr s a ha,
                ih Ty.expr _ b hb, Everywhere.transform]
      | bool => simp [everywhereFuel, Term.mapOneTransformF, Everywhere.transform]
      | int => simp [everywhereFuel, Term.mapOneTransformF, Everywhere.transform]
      | str => simp [everywhereFuel, Term.mapOneTransformF, Everywhere.transform]

theorem everywhereFuel_below {S : Type} (f : GTf S) :
    ∀ (fuel : Nat) (T : Ty) (s : S) (t : T.denote), fuel < Ty.depth T t →
      everywhereFuel f fuel T s t = none := by
  intro fuel
  induction fuel with
  | zero => intro T s t _; simp [everywhereFuel]
  | succ fuel ih =>
      intro T s t h
      cases T with
      | expr =>
          cases t with
          | leaf n =>
              have h0 : fuel < Ty.depth Ty.int n := by
                simp [Ty.depth, Expr.depth] at h ⊢
                omega
              simp [everywhereFuel, Term.mapOneTransformF, ih Ty.int s n h0]
          | pair a b =>
              by_cases ha : fuel < Ty.depth Ty.expr a
              · simp [everywhereFuel, Term.mapOneTransformF, ih Ty.expr s a ha]
              · have ha2 : Ty.depth Ty.expr a ≤ fuel := Nat.le_of_not_lt ha
                have hb : fuel < Ty.depth Ty.expr b := by
                  simp [Ty.depth, Expr.depth] at h ha2 ⊢
                  omega
                simp [everywhereFuel, Term.mapOneTransformF,
                  everywhereFuel_complete f fuel Ty.expr s a ha2,
                  ih Ty.expr _ b hb]
      | bool => simp [Ty.depth] at h
      | int => simp [Ty.depth] at h
      | str => simp [Ty.depth] at h

theorem everywhereButFuel_complete {S : Type} (p : GQf S) (f : GTf S) :
    ∀ (fuel : Nat) (T : Ty) (s : S) (t : T.denote), Ty.depth T t ≤ fuel →
      everywhereButFuel p f fuel T s t
        = some (EverywhereBut.transform p f T s t) := by
  intro fuel
  induction fuel with
  | zero =>
      intro T s t h
      cases T with
      | expr => cases t <;> simp [Ty.depth, Expr.depth] at h
      | bool => simp [Ty.depth] at h
      | int => simp [Ty.depth] at h
      | str => simp [Ty.depth] at h
  | succ fuel ih =>
      intro T s t h
      cases T with
      | expr =>
          cases t with
          | leaf n =>
              have h1 : ∀ s2 : S, Ty.depth Ty.int n ≤ fuel := by
                intro s2
                simp [Ty.depth, Expr.depth] at h ⊢
                omega
              by_cases hq : (p Ty.expr s (Expr.leaf n)).1
              · simp [everywhereButFuel, Term.mapOneTransformF, hq,
                  ih Ty.int _ n (h1 s), EverywhereBut.transform]
              · simp [everywhereButFuel, hq, EverywhereBut.transform]
          | pair a b =>
              have ha : Ty.depth Ty.expr a ≤ fuel := by
                simp [Ty.depth, Expr.depth] at h ⊢
                omega
              have hb : Ty.depth Ty.expr b ≤ fuel := by
                simp [Ty.depth, Expr.depth] at h ⊢
                omega
              by_cases hq : (p Ty.expr s (Expr.pair a b)).1
              · simp [everywhereButFuel, Term.mapOneTransformF, hq,
                  ih Ty.expr _ a ha, ih Ty.expr _ b hb, EverywhereBut.transform]
              · simp [everywhereButFuel, hq, EverywhereBut.transform]
      | bool =>
          by_cases hq : (p Ty.bool s t).1 <;>
            simp [everywhereButFuel, Term.mapOneTransformF, hq,
              EverywhereBut.transform]
      | int =>
          by_cases hq : (p Ty.int s t).1 <;>
            simp [everywhereButFuel, Term.mapOneTransformF, hq,
              EverywhereBut.transform]
      | str =>
          by_cases hq : (p Ty.str s t).1 <;>
            simp [everywhereButFuel, Term.mapOneTransformF, hq,
              EverywhereBut.transform]

/-- C9 (amended): both traversals terminate on every finite term — the
fuel-indexed runs succeed, agreeing with the recursive definitions, once
the fuel reaches the structural depth.  For `Everywhere` the recursion
depth is exactly the structural depth: any smaller fuel yields `none`.
For `EverywhereBut` the structural depth is only an upper bound on the
recursion depth, since a false predicate prunes a subtree without
descending into it. -/
theorem traversal_recursion_depth :
    (∀ (S : Type) (f : GTf S) (fuel : Nat) (T : Ty) (s : S) (t : T.denote),
      Ty.depth T t ≤ fuel →
      everywhereFuel f fuel T s t = some (Everywhere.transform f T s t))
    ∧ (∀ (S : Type) (f : GTf S) (fuel : Nat) (T : Ty) (s : S) (t : T.denote),
      fuel < Ty.depth T t → everywhereFuel f fuel T s t = none)
    ∧ (∀ (S : Type) (p : GQf S) (f : GTf S) (fuel : Nat) (T : Ty) (s : S)
        (t : T.denote), Ty.depth T t ≤ fuel →
      everywhereButFuel p f fuel T s t
        = some (EverywhereBut.transform p f T s t)) :=
  ⟨fun _ f fuel T s t h => everywhereFuel_complete f fuel T s t h,
   fun _ f fuel T s t h => everywhereFuel_below f fuel T s t h,
   fun _ p f fuel T s t h => everywhereButFuel_complete p f fuel T s t h⟩

/-- Witness for C9: on `Pair(Leaf(1), Leaf(2))` (structural depth 3) the
full traversal completes with fuel 3, fails with fuel 2, and the filtered
traversal with an always-true logging predicate completes with fuel 3. -/
theorem traversal_recursion_depth_witness :
    everywhereFuel traceGT 3 Ty.expr [] (Expr.pair (Expr.leaf 1) (Expr.leaf 2))
      = some (Everywhere.transform traceGT Ty.expr []
          (Expr.pair (Expr.leaf 1) (Expr.leaf 2)))
    ∧ everywhereFuel traceGT 2 Ty.expr [] (Expr.pair (Expr.leaf 1) (Expr.leaf 2))
      = none
    ∧ everywhereButFuel traceGQ traceGT 3 Ty.expr []
        (Expr.pair (Expr.leaf 1) (Expr.leaf 2))
      = some (EverywhereBut.transform traceGQ traceGT Ty.expr []
          (Expr.pair (Expr.leaf 1) (Expr.leaf 2))) :=
  ⟨traversal_recursion_depth.1 (List TEntry) traceGT 3 Ty.expr []
      (Expr.pair (Expr.leaf 1) (Expr.leaf 2)) (by decide),
   traversal_recursion_depth.2.1 (List TEntry) traceGT 2 Ty.expr []
      (Expr.pair (Expr.leaf 1) (Expr.leaf 2)) (by decide),
   traversal_recursion_depth.2.2 (List TEntry) traceGQ traceGT 3 Ty.expr []
      (Expr.pair (Expr.leaf 1) (Expr.leaf 2)) (by decide)⟩

/-- Counterexample for C9 as stated: with a constantly-false (counting)
predicate, `EverywhereBut::transform` on `Pair(Leaf(1), Leaf(2))` completes
within recursion depth 1 — a single call, no descent — although the
structural depth of the term is 3, so its recursion depth is not equal to
the structural depth. -/
theorem traversal_recursion_depth_counterexample :
    everywhereButFuel (fun (_ : Ty) (s : Nat) _ => (false, s + 1))
      (fun _ s t => (t, s)) 1 Ty.expr 0 (Expr.pair (Expr.leaf 1) (Expr.leaf 2))
      = some (Expr.pair (Expr.leaf 1) (Expr.leaf 2), 1)
    ∧ 1 < Ty.depth Ty.expr (Expr.pair (Expr.leaf 1) (Expr.leaf 2)) := by
  exact ⟨rfl, by decide⟩

end Scrap
